import Mathlib

/-!
Verification development for the StudySync study-session tracker.

The definitions below are a shallow embedding of the backend code:
the analytics route handlers (dashboard, time-series, subjects, patterns),
the session model's duration computation, the session routes' subject-counter
maintenance, and the subject-delete route.  Dates are modelled at UTC
day granularity as (year, month, day) triples; instants that only ever get
compared at day granularity are compared lexicographically.  JavaScript
number arithmetic on minute/percentage scales is modelled with Rat, and
JavaScript Math.round as floor (x + 1/2).  While-loops are modelled with an
explicit fuel parameter that only bounds the iteration count; the theorems
show the loops exit through their own condition before the fuel runs out.
-/

namespace StudySync

/-- JavaScript Math.round: round half toward positive infinity. -/
def jsRound (q : ℚ) : ℤ := ⌊q + 1/2⌋

/-- The source's two-decimal rounding idiom: Math.round(q * 100) / 100. -/
def round2 (q : ℚ) : ℚ := (jsRound (q * 100) : ℚ) / 100

/-- A calendar date (UTC), as used by the analytics bucketing code. -/
structure SDate where
  y : Nat
  m : Nat
  d : Nat
deriving DecidableEq, Repr

/-- Lexicographic date order; models comparing two midnight instants. -/
def dle (a b : SDate) : Prop :=
  a.y < b.y ∨ (a.y = b.y ∧ (a.m < b.m ∨ (a.m = b.m ∧ a.d ≤ b.d)))

instance (a b : SDate) : Decidable (dle a b) := by
  unfold dle; infer_instance

/-- Strict lexicographic date order. -/
def dlt (a b : SDate) : Prop :=
  a.y < b.y ∨ (a.y = b.y ∧ (a.m < b.m ∨ (a.m = b.m ∧ a.d < b.d)))

instance (a b : SDate) : Decidable (dlt a b) := by
  unfold dlt; infer_instance

/-- Gregorian leap-year rule (as implemented by JavaScript Date). -/
def isLeap (y : Nat) : Bool :=
  (y % 4 == 0 && y % 100 != 0) || y % 400 == 0

/-- Days in a month of a given year. -/
def daysInMonth (y m : Nat) : Nat :=
  match m with
  | 2 => if isLeap y then 29 else 28
  | 4 | 6 | 9 | 11 => 30
  | _ => 31

/-- The next calendar day; models currentDate.setDate(getDate() + 1). -/
def nextDay (x : SDate) : SDate :=
  if x.d < daysInMonth x.y x.m then ⟨x.y, x.m, x.d + 1⟩
  else if x.m < 12 then ⟨x.y, x.m + 1, 1⟩
  else ⟨x.y + 1, 1, 1⟩

/-- A date is valid when its month and day are in calendar range. -/
def ValidDate (x : SDate) : Prop :=
  1 ≤ x.m ∧ x.m ≤ 12 ∧ 1 ≤ x.d ∧ x.d ≤ daysInMonth x.y x.m

instance (x : SDate) : Decidable (ValidDate x) := by
  unfold ValidDate; infer_instance

/-- 1-based day of the year of a date. -/
def dayOfYear (x : SDate) : Nat :=
  (List.range (x.m - 1)).foldl (fun acc i => acc + daysInMonth x.y (i + 1)) 0 + x.d

/-- Zero-padding to two digits, as the route does with padStart(2, '0'). -/
def pad2 (n : Nat) : String :=
  if n < 10 then "0" ++ toString n else toString n

/-- Daily bucket key: currentDate.toISOString().split('T')[0], i.e. YYYY-MM-DD. -/
def isoKey (x : SDate) : String :=
  toString x.y ++ "-" ++ pad2 x.m ++ "-" ++ pad2 x.d

/-- Weekly bucket key produced by the fill loop:
year-W(ceil(dayOfYear / 7)), from
Math.ceil(((currentDate - new Date(year,0,1)) / 86400000 + 1) / 7). -/
def fillWeekKey (x : SDate) : String :=
  toString x.y ++ "-W" ++ pad2 ((dayOfYear x + 6) / 7)

/-- Monthly bucket key: year and 1-based zero-padded month. -/
def monthKey (x : SDate) : String :=
  toString x.y ++ "-" ++ pad2 x.m

/-- First day of the following month; models setDate(1) followed by
setMonth(getMonth() + 1) with JavaScript month rollover. -/
def nextMonthFirst (x : SDate) : SDate :=
  if x.m < 12 then ⟨x.y, x.m + 1, 1⟩ else ⟨x.y + 1, 1, 1⟩

/-- Linear month index of a date: 12 * year + month. -/
def mIdx (x : SDate) : Nat := 12 * x.y + x.m

/-- The first day of the month with the given linear month index. -/
def firstOfIdx (i : Nat) : SDate := ⟨(i - 1) / 12, (i - 1) % 12 + 1, 1⟩

/-- Days since 1970-01-01 (Howard Hinnant's civil-from-days inverse),
modelling the UTC day arithmetic of JavaScript Date. -/
def daysFromCivil (x : SDate) : ℤ :=
  let yr : ℤ := if x.m ≤ 2 then (x.y : ℤ) - 1 else (x.y : ℤ)
  let era : ℤ := (if 0 ≤ yr then yr else yr - 399) / 400
  let yoe : ℤ := yr - era * 400
  let mp : ℤ := ((x.m : ℤ) + 9) % 12
  let doy : ℤ := (153 * mp + 2) / 5 + (x.d : ℤ) - 1
  let doe : ℤ := yoe * 365 + yoe / 4 - yoe / 100 + doy
  era * 146097 + doe - 719468

/-- Day of the week, 0 = Sunday .. 6 = Saturday (1970-01-01 was a Thursday). -/
def weekday (x : SDate) : ℤ :=
  (daysFromCivil x + 4) % 7

/-- MongoDB $week / %U week number: weeks begin on Sunday, the days before
the first Sunday of the year are week 0. -/
def mongoWeek (x : SDate) : Nat :=
  let j := (weekday ⟨x.y, 1, 1⟩).toNat
  let fs := 1 + (7 - j) % 7
  let doy := dayOfYear x
  if doy < fs then 0 else (doy - fs) / 7 + 1

/-- Weekly bucket key produced by the aggregation pipeline:
dateFormat '%Y-W%U' applied to the session's startTime. -/
def mongoWeekKey (x : SDate) : String :=
  toString x.y ++ "-W" ++ pad2 (mongoWeek x)

/-- One row of the $group stage output of the time-series aggregation. -/
structure TSRow where
  date : String
  totalTime : Nat
  sessionCount : Nat
  avgFocus : ℚ
  avgDifficulty : ℚ
deriving DecidableEq, Repr

/-- One entry of the filledData array returned by the time-series route. -/
structure TSEntry where
  date : String
  totalTime : Nat
  sessionCount : Nat
  avgFocus : ℚ
  avgDifficulty : ℚ
deriving DecidableEq, Repr

/-- The requested aggregation period. -/
inductive Period where
  | daily
  | weekly
  | monthly
deriving DecidableEq, Repr

/-- The dateKey computed by the fill loop for the current date. -/
def periodKey : Period → SDate → String
  | .daily => isoKey
  | .weekly => fillWeekKey
  | .monthly => monthKey

/-- How the fill loop advances currentDate: +1 day, +7 days, or to the
first of the next month. -/
def periodNext : Period → SDate → SDate
  | .daily => nextDay
  | .weekly => fun x => nextDay^[7] x
  | .monthly => nextMonthFirst

/-- One filled entry: timeSeries.find(item => item.date === dateKey),
zero-filled when absent, two-decimal rounding of averages when present. -/
def mkEntry (key : String) (ts : List TSRow) : TSEntry :=
  match ts.find? (fun r => r.date == key) with
  | some r => ⟨key, r.totalTime, r.sessionCount, round2 r.avgFocus, round2 r.avgDifficulty⟩
  | none => ⟨key, 0, 0, 0, 0⟩

/-- The fill loop of GET /api/analytics/time-series:
while (currentDate <= endDate) push an entry for the current bucket and
advance by the period step.  The fuel argument only bounds the number of
iterations; the loop exits through its own condition. -/
def fillLoop : Nat → Period → SDate → SDate → List TSRow → List TSEntry
  | 0, _, _, _, _ => []
  | fuel + 1, p, cur, e, ts =>
      if dle cur e then mkEntry (periodKey p cur) ts :: fillLoop fuel p (periodNext p cur) e ts
      else []

/-- Session duration as computed by the SessionSchema pre-save hook:
Math.round((endTime - startTime) / (1000 * 60)), times in milliseconds. -/
def computeDuration (startMs endMs : ℤ) : ℤ :=
  jsRound (((endMs - startMs : ℤ) : ℚ) / 60000)

/-- The POST /api/sessions time-range check: end <= start is rejected. -/
def routeAcceptsTimes (startMs endMs : ℤ) : Prop := startMs < endMs

instance (s e : ℤ) : Decidable (routeAcceptsTimes s e) := by
  unfold routeAcceptsTimes; infer_instance

/-- The SessionSchema duration field constraint: min 1. -/
def durationSchemaOk (d : ℤ) : Prop := 1 ≤ d

instance (d : ℤ) : Decidable (durationSchemaOk d) := by
  unfold durationSchemaOk; infer_instance

/-- The goalProgress computation of GET /api/analytics/dashboard:
goal > 0 ? (total / goal) * 100 : 0, then Math.round(x * 100) / 100.
An absent goal (undefined) makes the guard falsy, like goal 0. -/
def goalProgress (total : Nat) (goal : Option Nat) : ℚ :=
  round2 (match goal with
    | some g => if 0 < g then (total : ℚ) / (g : ℚ) * 100 else 0
    | none => 0)

/-- A session record as the dashboard partitions see it: a start instant
(milliseconds) and a duration (minutes). -/
structure DSession where
  startTime : ℤ
  duration : Nat
deriving DecidableEq, Repr

/-- A dashboard partition facet: $match startTime >= t, then $group
accumulating $sum duration and $sum 1 document by document. -/
def periodStats (t : ℤ) (ss : List DSession) : Nat × Nat :=
  ss.foldl (fun acc s => if t ≤ s.startTime then (acc.1 + s.duration, acc.2 + 1) else acc) (0, 0)

/-- The overall facet: no $match, $group over every session. -/
def overallStats (ss : List DSession) : Nat × Nat :=
  ss.foldl (fun acc s => (acc.1 + s.duration, acc.2 + 1)) (0, 0)

/-- One processed per-subject stat row of GET /api/analytics/subjects. -/
structure SubjStat where
  totalTime : Nat
  sessionCount : Nat
deriving DecidableEq, Repr

/-- totalStudyTime of the subjects response: sum of per-subject totals. -/
def subjTotalTime (stats : List SubjStat) : Nat :=
  (stats.map (fun s => s.totalTime)).sum

/-- totalSessions of the subjects response: sum of per-subject counts. -/
def subjTotalSessions (stats : List SubjStat) : Nat :=
  (stats.map (fun s => s.sessionCount)).sum

/-- timePercentage: total > 0 ? Math.round((t / total) * 10000) / 100 : 0. -/
def timePercentage (total : Nat) (s : SubjStat) : ℚ :=
  if 0 < total then (jsRound ((s.totalTime : ℚ) / (total : ℚ) * 10000) : ℚ) / 100 else 0

/-- sessionPercentage: same computation over session counts. -/
def sessionPercentage (total : Nat) (s : SubjStat) : ℚ :=
  if 0 < total then (jsRound ((s.sessionCount : ℚ) / (total : ℚ) * 10000) : ℚ) / 100 else 0

/-- A stat row coming out of the $group stage groups at least one session,
and every grouped session has duration at least 1 (the schema minimum),
so its totalTime dominates its sessionCount. -/
def GroupedStat (s : SubjStat) : Prop :=
  1 ≤ s.sessionCount ∧ s.sessionCount ≤ s.totalTime

instance (s : SubjStat) : Decidable (GroupedStat s) := by
  unfold GroupedStat; infer_instance

/-- A stored session of one subject, as the counter-maintenance code sees
it: its id, its duration in minutes, and its remaining metadata (study
method, location, ratings, notes), abstracted to one field. -/
structure Sess where
  sid : Nat
  dur : Nat
  meta : Nat
deriving DecidableEq, Repr

/-- The subject's denormalized counters plus its stored sessions.  nextId
models the store handing out fresh ids. -/
structure SubjectState where
  sessions : List Sess
  totalStudyTime : ℤ
  totalSessions : ℤ
  nextId : Nat
deriving DecidableEq, Repr

/-- A subject with zero counters and no sessions. -/
def initialSubject : SubjectState := ⟨[], 0, 0, 0⟩

/-- A session mutation, as performed by the session routes.  An update
carries the duration derived from the (possibly absent) new times and the
(possibly absent) new metadata; absent times leave the pre-save hook
recomputing the same duration. -/
inductive SOp where
  | create (dur meta : Nat)
  | update (sid : Nat) (newDur : Option Nat) (newMeta : Option Nat)
  | delete (sid : Nat)
deriving DecidableEq, Repr

/-- One route invocation against the subject's state:
POST adds the session then does totalStudyTime += duration,
totalSessions += 1; PUT rewrites the found session and, only when the
recomputed duration differs from the old one, does
totalStudyTime = totalStudyTime - oldDuration + newDuration;
DELETE removes the found session and floors both counters at 0.
A missing session id is a 404: no state change. -/
def applyOp (st : SubjectState) : SOp → SubjectState
  | .create dur meta =>
      { sessions := ⟨st.nextId, dur, meta⟩ :: st.sessions
        totalStudyTime := st.totalStudyTime + dur
        totalSessions := st.totalSessions + 1
        nextId := st.nextId + 1 }
  | .update sid newDur newMeta =>
      match st.sessions.find? (fun s => s.sid == sid) with
      | none => st
      | some old =>
          let nd := newDur.getD old.dur
          { sessions := st.sessions.map (fun s =>
              if s.sid == sid then ⟨s.sid, nd, newMeta.getD s.meta⟩ else s)
            totalStudyTime :=
              if nd ≠ old.dur then st.totalStudyTime - old.dur + nd else st.totalStudyTime
            totalSessions := st.totalSessions
            nextId := st.nextId }
  | .delete sid =>
      match st.sessions.find? (fun s => s.sid == sid) with
      | none => st
      | some old =>
          { sessions := st.sessions.filter (fun s => s.sid ≠ sid)
            totalStudyTime := max 0 (st.totalStudyTime - old.dur)
            totalSessions := max 0 (st.totalSessions - 1)
            nextId := st.nextId }

/-- Run a sequence of session mutations from a state. -/
def runOps (st : SubjectState) (ops : List SOp) : SubjectState :=
  ops.foldl applyOp st

/-- Sum of the durations of the currently stored sessions. -/
def sumDurations (ss : List Sess) : ℤ :=
  (ss.map (fun s => (s.dur : ℤ))).sum

/-- Session ids are pairwise distinct and below the next fresh id. -/
def IdsOk (st : SubjectState) : Prop :=
  st.sessions.Pairwise (fun a b => a.sid ≠ b.sid) ∧ ∀ s ∈ st.sessions, s.sid < st.nextId

/-- The store state seen by DELETE /api/subjects/:id — the subject ids of
one user and the (sessionId, subjectId) pairs of their sessions. -/
structure Store where
  subjects : List Nat
  sessions : List (Nat × Nat)
deriving DecidableEq, Repr

/-- Outcome of the subject-delete route. -/
inductive DelResult where
  | notFound
  | rejected (sessionCount : Nat)
  | deleted (sessionCount : Nat)
deriving DecidableEq, Repr

/-- JavaScript truthiness of req.query.force: the parameter is either
absent (undefined, falsy) or a string, and a string is falsy exactly when
it is empty. -/
def truthy : Option String → Bool
  | none => false
  | some s => s ≠ ""

/-- DELETE /api/subjects/:id: 404 when the subject does not exist;
400 when it has sessions and !req.query.force; otherwise deleteMany the
subject's sessions when force is truthy, then delete the subject. -/
def deleteSubject (st : Store) (sid : Nat) (force : Option String) : DelResult × Store :=
  if sid ∈ st.subjects then
    let sessionCount := (st.sessions.filter (fun s => s.2 == sid)).length
    if 0 < sessionCount ∧ ¬ truthy force then
      (.rejected sessionCount, st)
    else
      let sessions' := if truthy force then st.sessions.filter (fun s => s.2 ≠ sid) else st.sessions
      (.deleted sessionCount, ⟨st.subjects.filter (fun x => x ≠ sid), sessions'⟩)
  else
    (.notFound, st)

/-- C3: the session routes accept any pair of times with endTime strictly
after startTime, but the pre-save hook's Math.round((end - start) / 60000)
yields 0 for a 10-second session, violating the schema's own duration
minimum of 1: the code contradicts its declared invariant. -/
theorem session_duration_round_to_zero :
    routeAcceptsTimes 0 10000 ∧
    computeDuration 0 10000 = 0 ∧
    ¬ durationSchemaOk (computeDuration 0 10000) := by
  have h : computeDuration 0 10000 = 0 := by
    norm_num [computeDuration, jsRound]
  refine ⟨by decide, h, ?_⟩
  rw [h]
  decide

/-- C4: dashboard goal progress is round2((total / goal) * 100) whenever the
goal is positive, is 0 when the goal is 0 or absent, and is not clamped:
45 minutes against a 30-minute goal reports 150. -/
theorem dashboard_goal_progress :
    (∀ total g : Nat, 0 < g →
      goalProgress total (some g) = round2 ((total : ℚ) / (g : ℚ) * 100)) ∧
    (∀ total : Nat, goalProgress total (some 0) = 0) ∧
    (∀ total : Nat, goalProgress total none = 0) ∧
    goalProgress 45 (some 30) = 150 ∧ (100 : ℚ) < 150 := by
  refine ⟨?_, ?_, ?_, ?_, by norm_num⟩
  · intro total g hg
    simp only [goalProgress, if_pos hg]
  · intro total
    norm_num [goalProgress, round2, jsRound]
  · intro total
    norm_num [goalProgress, round2, jsRound]
  · show round2 (if 0 < (30 : ℕ) then (45 : ℚ) / 30 * 100 else 0) = 150
    norm_num [round2, jsRound]

/-- Witness for C4 at total 45, goal 30. -/
theorem dashboard_goal_progress_witness :
    goalProgress 45 (some 30) = round2 ((45 : ℚ) / 30 * 100) :=
  dashboard_goal_progress.1 45 30 (by decide)

/-- C2: the aggregation pipeline keys weeks with the Sunday-based %U week
number (week 0 before the first Sunday) while the fill loop keys them with
ceil(dayOfYear / 7); at 2024-01-01 (a Monday) these give 2024-W00 versus
2024-W01, so a weekly time-series containing a session on that date shows
only a zero-filled 2024-W01 entry and drops the session's 50 minutes. -/
theorem weekly_key_mismatch :
    mongoWeekKey ⟨2024, 1, 1⟩ ≠ fillWeekKey ⟨2024, 1, 1⟩ ∧
    fillLoop 2 .weekly ⟨2024, 1, 1⟩ ⟨2024, 1, 1⟩ [⟨"2024-W00", 50, 1, 5, 5⟩] =
      [⟨"2024-W01", 0, 0, 0, 0⟩] := by
  constructor <;> decide

/-- C8: deleting a subject that has sessions is rejected with the state
unchanged when the force query parameter is absent, and with force=true the
subject's sessions are removed and then the subject is removed, leaving
other subjects and other subjects' sessions intact. -/
theorem subject_delete_force (st : Store) (sid : Nat) (h1 : sid ∈ st.subjects)
    (h2 : 0 < (st.sessions.filter (fun s => s.2 == sid)).length) :
    deleteSubject st sid none =
      (.rejected ((st.sessions.filter (fun s => s.2 == sid)).length), st) ∧
    deleteSubject st sid (some "true") =
      (.deleted ((st.sessions.filter (fun s => s.2 == sid)).length),
        ⟨st.subjects.filter (fun x => x ≠ sid), st.sessions.filter (fun s => s.2 ≠ sid)⟩) := by
  constructor
  · simp [deleteSubject, h1, truthy, h2]
  · simp [deleteSubject, h1, truthy, h2]

/-- Witness for C8 on a store with one subject owning one session. -/
theorem subject_delete_force_witness :
    deleteSubject ⟨[1], [(10, 1)]⟩ 1 none = (.rejected 1, ⟨[1], [(10, 1)]⟩) ∧
    deleteSubject ⟨[1], [(10, 1)]⟩ 1 (some "true") = (.deleted 1, ⟨[], []⟩) := by
  have h := subject_delete_force ⟨[1], [(10, 1)]⟩ 1 (by decide) (by decide)
  exact ⟨h.1, h.2⟩

/-- C10: the force flag is JavaScript truthiness of the raw query string,
so force=false and force=0 still cascade-delete the subject and its
sessions; only an absent or empty force parameter is rejected when the
subject has sessions. -/
theorem subject_delete_force_truthiness (st : Store) (sid : Nat) (h1 : sid ∈ st.subjects)
    (h2 : 0 < (st.sessions.filter (fun s => s.2 == sid)).length) :
    deleteSubject st sid (some "false") =
      (.deleted ((st.sessions.filter (fun s => s.2 == sid)).length),
        ⟨st.subjects.filter (fun x => x ≠ sid), st.sessions.filter (fun s => s.2 ≠ sid)⟩) ∧
    deleteSubject st sid (some "0") =
      (.deleted ((st.sessions.filter (fun s => s.2 == sid)).length),
        ⟨st.subjects.filter (fun x => x ≠ sid), st.sessions.filter (fun s => s.2 ≠ sid)⟩) ∧
    deleteSubject st sid none =
      (.rejected ((st.sessions.filter (fun s => s.2 == sid)).length), st) ∧
    deleteSubject st sid (some "") =
      (.rejected ((st.sessions.filter (fun s => s.2 == sid)).length), st) := by
  refine ⟨?_, ?_, ?_, ?_⟩ <;> simp [deleteSubject, h1, truthy, h2]

/-- Witness for C10 on a store with one subject owning one session. -/
theorem subject_delete_force_truthiness_witness :
    deleteSubject ⟨[1], [(10, 1)]⟩ 1 (some "false") = (.deleted 1, ⟨[], []⟩) ∧
    deleteSubject ⟨[1], [(10, 1)]⟩ 1 (some "0") = (.deleted 1, ⟨[], []⟩) := by
  have h := subject_delete_force_truthiness ⟨[1], [(10, 1)]⟩ 1 (by decide) (by decide)
  exact ⟨h.1, h.2.1⟩

theorem periodStats_go (t : ℤ) (ss : List DSession) (a b : Nat) :
    ss.foldl (fun acc s => if t ≤ s.startTime then (acc.1 + s.duration, acc.2 + 1) else acc) (a, b) =
      (a + ((ss.filter (fun s => decide (t ≤ s.startTime))).map (fun s => s.duration)).sum,
       b + (ss.filter (fun s => decide (t ≤ s.startTime))).length) := by
  induction ss generalizing a b with
  | nil => simp
  | cons s rest ih =>
    by_cases h : t ≤ s.startTime
    · simp [List.filter_cons, h, ih]
      omega
    · simp [List.filter_cons, h, ih]

theorem periodStats_spec (t : ℤ) (ss : List DSession) :
    periodStats t ss =
      (((ss.filter (fun s => decide (t ≤ s.startTime))).map (fun s => s.duration)).sum,
       (ss.filter (fun s => decide (t ≤ s.startTime))).length) := by
  have h := periodStats_go t ss 0 0
  simpa [periodStats] using h

theorem overallStats_spec (ss : List DSession) :
    overallStats ss = ((ss.map (fun s => s.duration)).sum, ss.length) := by
  have aux : ∀ (l : List DSession) (a b : Nat),
      l.foldl (fun acc s => (acc.1 + s.duration, acc.2 + 1)) (a, b) =
        (a + (l.map (fun s => s.duration)).sum, b + l.length) := by
    intro l
    induction l with
    | nil => simp
    | cons s rest ih =>
      intro a b
      simp only [List.foldl_cons, ih, List.map_cons, List.sum_cons, List.length_cons,
        Prod.mk.injEq]
      omega
  simpa [overallStats] using aux ss 0 0

theorem periodStats_mono (ss : List DSession) {t' t : ℤ} (h : t' ≤ t) :
    (periodStats t ss).1 ≤ (periodStats t' ss).1 ∧
    (periodStats t ss).2 ≤ (periodStats t' ss).2 := by
  rw [periodStats_spec, periodStats_spec]
  induction ss with
  | nil => simp
  | cons s rest ih =>
    by_cases h1 : t ≤ s.startTime
    · have h2 : t' ≤ s.startTime := le_trans h h1
      simp [List.filter_cons, h1, h2]
      omega
    · by_cases h2 : t' ≤ s.startTime
      · simp [List.filter_cons, h1, h2]
        omega
      · simp [List.filter_cons, h1, h2]
        exact ih

theorem periodStats_le_overall (ss : List DSession) (t : ℤ) :
    (periodStats t ss).1 ≤ (overallStats ss).1 ∧
    (periodStats t ss).2 ≤ (overallStats ss).2 := by
  rw [periodStats_spec, overallStats_spec]
  induction ss with
  | nil => simp
  | cons s rest ih =>
    by_cases h1 : t ≤ s.startTime
    · simp [List.filter_cons, h1]
      omega
    · simp [List.filter_cons, h1]
      omega

/-- C5: every dashboard partition facet totals exactly the sessions whose
startTime lies in the partition's range [t, now-open), the partition totals
are monotone along today, thisWeek, thisMonth, thisYear, overall whenever
the partition start instants nest, and three sessions of 45, 60 and 30
minutes dated inside the today partition give studyTime 135 and 3 sessions. -/
theorem dashboard_partition_totals (ss : List DSession) (tT tW tM tY : ℤ)
    (hWT : tW ≤ tT) (hMW : tM ≤ tW) (hYM : tY ≤ tM) :
    (∀ t : ℤ, periodStats t ss =
      (((ss.filter (fun s => decide (t ≤ s.startTime))).map (fun s => s.duration)).sum,
       (ss.filter (fun s => decide (t ≤ s.startTime))).length)) ∧
    ((periodStats tT ss).1 ≤ (periodStats tW ss).1 ∧
     (periodStats tW ss).1 ≤ (periodStats tM ss).1 ∧
     (periodStats tM ss).1 ≤ (periodStats tY ss).1 ∧
     (periodStats tY ss).1 ≤ (overallStats ss).1) ∧
    ((periodStats tT ss).2 ≤ (periodStats tW ss).2 ∧
     (periodStats tW ss).2 ≤ (periodStats tM ss).2 ∧
     (periodStats tM ss).2 ≤ (periodStats tY ss).2 ∧
     (periodStats tY ss).2 ≤ (overallStats ss).2) ∧
    periodStats 0 [⟨0, 45⟩, ⟨0, 60⟩, ⟨0, 30⟩] = (135, 3) := by
  refine ⟨fun t => periodStats_spec t ss,
    ⟨(periodStats_mono ss hWT).1, (periodStats_mono ss hMW).1,
     (periodStats_mono ss hYM).1, (periodStats_le_overall ss tY).1⟩,
    ⟨(periodStats_mono ss hWT).2, (periodStats_mono ss hMW).2,
     (periodStats_mono ss hYM).2, (periodStats_le_overall ss tY).2⟩, ?_⟩
  decide

/-- Witness for C5 with all partition starts equal. -/
theorem dashboard_partition_totals_witness :
    (periodStats 0 [⟨0, 45⟩, ⟨0, 60⟩, ⟨0, 30⟩]).1 ≤
      (overallStats [(⟨0, 45⟩ : DSession), ⟨0, 60⟩, ⟨0, 30⟩]).1 ∧
    periodStats 0 [⟨0, 45⟩, ⟨0, 60⟩, ⟨0, 30⟩] = (135, 3) := by
  have h := dashboard_partition_totals [⟨0, 45⟩, ⟨0, 60⟩, ⟨0, 30⟩] 0 0 0 0
    (le_refl 0) (le_refl 0) (le_refl 0)
  exact ⟨h.2.1.2.2.2, h.2.2.2⟩

/-- C9: a session update whose fields leave the recomputed duration
unchanged (times absent from the request body, so only studyMethod,
location, ratings or notes change) leaves the owning subject's
totalStudyTime and totalSessions both unchanged, and no session update of
any shape ever modifies totalSessions. -/
theorem session_update_frame (st : SubjectState) (sid : Nat) (nm : Option Nat) :
    (applyOp st (.update sid none nm)).totalStudyTime = st.totalStudyTime ∧
    (applyOp st (.update sid none nm)).totalSessions = st.totalSessions ∧
    ∀ nd' nm' : Option Nat,
      (applyOp st (.update sid nd' nm')).totalSessions = st.totalSessions := by
  refine ⟨?_, ?_, ?_⟩
  · cases h : st.sessions.find? (fun s => s.sid == sid) with
    | none => simp [applyOp, h]
    | some old => simp [applyOp, h]
  · cases h : st.sessions.find? (fun s => s.sid == sid) with
    | none => simp [applyOp, h]
    | some old => simp [applyOp, h]
  · intro nd' nm'
    cases h : st.sessions.find? (fun s => s.sid == sid) with
    | none => simp [applyOp, h]
    | some old => simp [applyOp, h]

theorem sumDurations_nonneg (l : List Sess) : 0 ≤ sumDurations l := by
  induction l with
  | nil => simp [sumDurations]
  | cons a t ih =>
    simp only [sumDurations, List.map_cons, List.sum_cons] at ih ⊢
    positivity

theorem dur_le_sumDurations (l : List Sess) (old : Sess) (h : old ∈ l) :
    (old.dur : ℤ) ≤ sumDurations l := by
  induction l with
  | nil => simp at h
  | cons a t ih =>
    rcases List.mem_cons.mp h with rfl | hmem
    · have := sumDurations_nonneg t
      simp only [sumDurations, List.map_cons, List.sum_cons] at this ⊢
      omega
    · have := ih hmem
      have ha : (0 : ℤ) ≤ (a.dur : ℤ) := by positivity
      simp only [sumDurations, List.map_cons, List.sum_cons] at this ⊢
      omega

theorem sumDurations_cons (a : Sess) (t : List Sess) :
    sumDurations (a :: t) = (a.dur : ℤ) + sumDurations t := by
  simp [sumDurations]

theorem map_update_eq_self (l : List Sess) (sid nd : Nat) (nm : Option Nat)
    (h : ∀ s ∈ l, s.sid ≠ sid) :
    l.map (fun s => if s.sid == sid then ⟨s.sid, nd, nm.getD s.meta⟩ else s) = l := by
  induction l with
  | nil => rfl
  | cons a t ih =>
    have ha := h a (by simp)
    rw [List.map_cons, ih (fun s hs => h s (List.mem_cons_of_mem a hs))]
    congr 1
    simp [ha]

theorem filter_ne_eq_self (l : List Sess) (sid : Nat) (h : ∀ s ∈ l, s.sid ≠ sid) :
    l.filter (fun s => s.sid ≠ sid) = l := by
  induction l with
  | nil => rfl
  | cons a t ih =>
    have ha := h a (by simp)
    rw [List.filter_cons_of_pos (by simpa using ha),
      ih (fun s hs => h s (List.mem_cons_of_mem a hs))]

theorem sumDurations_map_update (sid nd : Nat) (nm : Option Nat) (l : List Sess) :
    ∀ old : Sess,
      l.Pairwise (fun a b => a.sid ≠ b.sid) →
      l.find? (fun s => s.sid == sid) = some old →
      sumDurations (l.map (fun s => if s.sid == sid then ⟨s.sid, nd, nm.getD s.meta⟩ else s)) =
        sumDurations l - old.dur + nd := by
  induction l with
  | nil => intro old _ hf; simp at hf
  | cons a t ih =>
    intro old hp hf
    rw [List.find?_cons] at hf
    by_cases ha : a.sid = sid
    · have hb : (a.sid == sid) = true := by simp [ha]
      rw [hb] at hf
      have hold : a = old := by injection hf
      subst hold
      have ht : ∀ s ∈ t, s.sid ≠ sid := by
        intro s hs hcon
        exact ((List.pairwise_cons.mp hp).1 s hs) (by rw [ha, hcon])
      rw [List.map_cons, map_update_eq_self t sid nd nm ht, sumDurations_cons,
        sumDurations_cons]
      have hga : (if (a.sid == sid) = true then
          (⟨a.sid, nd, nm.getD a.meta⟩ : Sess) else a).dur = nd := by
        rw [hb]
        simp
      rw [hga]
      omega
    · have hb : (a.sid == sid) = false := by simp [ha]
      rw [hb] at hf
      have hrec := ih old (List.pairwise_cons.mp hp).2 hf
      rw [List.map_cons, sumDurations_cons, sumDurations_cons]
      have hga : (if (a.sid == sid) = true then
          (⟨a.sid, nd, nm.getD a.meta⟩ : Sess) else a) = a := by
        rw [hb]
        simp
      rw [hga, hrec]
      omega

theorem sumDurations_filter_del (sid : Nat) (l : List Sess) :
    ∀ old : Sess,
      l.Pairwise (fun a b => a.sid ≠ b.sid) →
      l.find? (fun s => s.sid == sid) = some old →
      sumDurations (l.filter (fun s => s.sid ≠ sid)) = sumDurations l - old.dur ∧
      (l.filter (fun s => s.sid ≠ sid)).length + 1 = l.length := by
  induction l with
  | nil => intro old _ hf; simp at hf
  | cons a t ih =>
    intro old hp hf
    rw [List.find?_cons] at hf
    by_cases ha : a.sid = sid
    · have hb : (a.sid == sid) = true := by simp [ha]
      rw [hb] at hf
      have hold : a = old := by injection hf
      subst hold
      have ht : ∀ s ∈ t, s.sid ≠ sid := by
        intro s hs hcon
        exact ((List.pairwise_cons.mp hp).1 s hs) (by rw [ha, hcon])
      rw [List.filter_cons_of_neg (by simp [ha]), filter_ne_eq_self t sid ht]
      refine ⟨?_, by simp⟩
      rw [sumDurations_cons]
      omega
    · have hb : (a.sid == sid) = false := by simp [ha]
      rw [hb] at hf
      have hrec := ih old (List.pairwise_cons.mp hp).2 hf
      rw [List.filter_cons_of_pos (by simpa using ha)]
      refine ⟨?_, ?_⟩
      · rw [sumDurations_cons, sumDurations_cons, hrec.1]
        omega
      · rw [List.length_cons, List.length_cons]
        omega

theorem applyOp_inv (st : SubjectState) (op : SOp)
    (hpair : st.sessions.Pairwise (fun a b => a.sid ≠ b.sid))
    (hlt : ∀ s ∈ st.sessions, s.sid < st.nextId)
    (hsum : st.totalStudyTime = sumDurations st.sessions)
    (hcnt : st.totalSessions = (st.sessions.length : ℤ)) :
    (applyOp st op).sessions.Pairwise (fun a b => a.sid ≠ b.sid) ∧
    (∀ s ∈ (applyOp st op).sessions, s.sid < (applyOp st op).nextId) ∧
    (applyOp st op).totalStudyTime = sumDurations (applyOp st op).sessions ∧
    (applyOp st op).totalSessions = ((applyOp st op).sessions.length : ℤ) := by
  cases op with
  | create dur meta =>
    simp only [applyOp]
    refine ⟨?_, ?_, ?_, ?_⟩
    · refine List.pairwise_cons.mpr ⟨?_, hpair⟩
      intro b hb
      have := hlt b hb
      change st.nextId ≠ b.sid
      omega
    · intro s hs
      rcases List.mem_cons.mp hs with rfl | hmem
      · change st.nextId < st.nextId + 1
        omega
      · have := hlt s hmem
        omega
    · rw [sumDurations_cons, hsum]
      change sumDurations st.sessions + (dur : ℤ) = (dur : ℤ) + sumDurations st.sessions
      ring
    · rw [List.length_cons, hcnt]
      push_cast
      ring
  | update sid newDur newMeta =>
    cases hf : st.sessions.find? (fun s => s.sid == sid) with
    | none => simp only [applyOp, hf]; exact ⟨hpair, hlt, hsum, hcnt⟩
    | some old =>
      have hsum2 := sumDurations_map_update sid (newDur.getD old.dur) newMeta
        st.sessions old hpair hf
      refine ⟨?_, ?_, ?_, ?_⟩
      · simp only [applyOp, hf]
        rw [List.pairwise_map]
        refine hpair.imp ?_
        intro a b hab
        by_cases h1 : a.sid = sid <;> by_cases h2 : b.sid = sid <;>
          simp only [h1, h2, beq_self_eq_true, if_true, beq_iff_eq, if_false] <;>
          simp [h1, h2] <;> omega
      · intro s hs
        simp only [applyOp, hf] at hs ⊢
        rcases List.mem_map.mp hs with ⟨a, hmem, ha⟩
        have := hlt a hmem
        by_cases h1 : a.sid = sid
        · rw [← ha]
          simp only [h1, beq_self_eq_true, if_true]
          change sid < st.nextId
          omega
        · rw [← ha]
          simp only [beq_iff_eq, h1, if_false]
          omega
      · simp only [applyOp, hf]
        by_cases hnd : newDur.getD old.dur = old.dur
        · rw [if_neg (fun hc => hc hnd), hsum, hsum2, hnd]
          ring
        · rw [if_pos hnd, hsum, hsum2]
      · simp only [applyOp, hf, List.length_map]
        exact hcnt
  | delete sid =>
    cases hf : st.sessions.find? (fun s => s.sid == sid) with
    | none => simp only [applyOp, hf]; exact ⟨hpair, hlt, hsum, hcnt⟩
    | some old =>
      have hdel := sumDurations_filter_del sid st.sessions old hpair hf
      have hmem := List.mem_of_find?_eq_some hf
      have hle := dur_le_sumDurations st.sessions old hmem
      refine ⟨?_, ?_, ?_, ?_⟩
      · simp only [applyOp, hf]
        exact hpair.sublist (List.filter_sublist _)
      · intro s hs
        simp only [applyOp, hf] at hs ⊢
        exact hlt s (List.mem_of_mem_filter hs)
      · simp only [applyOp, hf]
        rw [hdel.1, hsum]
        omega
      · simp only [applyOp, hf]
        have h2 := hdel.2
        rw [hcnt]
        omega

theorem runOps_inv (ops : List SOp) :
    ∀ st : SubjectState,
      st.sessions.Pairwise (fun a b => a.sid ≠ b.sid) →
      (∀ s ∈ st.sessions, s.sid < st.nextId) →
      st.totalStudyTime = sumDurations st.sessions →
      st.totalSessions = (st.sessions.length : ℤ) →
      (runOps st ops).totalStudyTime = sumDurations (runOps st ops).sessions ∧
      (runOps st ops).totalSessions = ((runOps st ops).sessions.length : ℤ) := by
  induction ops with
  | nil => intro st _ _ h1 h2; exact ⟨h1, h2⟩
  | cons op rest ih =>
    intro st hpair hlt hsum hcnt
    have h := applyOp_inv st op hpair hlt hsum hcnt
    simpa [runOps] using ih (applyOp st op) h.1 h.2.1 h.2.2.1 h.2.2.2

/-- C6: starting from a subject with zero counters, after any finite
sequence of session create, update and delete operations the subject's
totalStudyTime equals the sum of the durations of its currently stored
sessions and totalSessions equals their count. -/
theorem subject_counters_consistent (ops : List SOp) :
    (runOps initialSubject ops).totalStudyTime =
      sumDurations (runOps initialSubject ops).sessions ∧
    (runOps initialSubject ops).totalSessions =
      ((runOps initialSubject ops).sessions.length : ℤ) := by
  refine runOps_inv ops initialSubject ?_ ?_ ?_ ?_ <;> simp [initialSubject, sumDurations]

theorem abs_jsRound_sub_le (q : ℚ) : |(jsRound q : ℚ) - q| ≤ 1 / 2 := by
  unfold jsRound
  rw [abs_le]
  have h1 : ((⌊q + 1 / 2⌋ : ℤ) : ℚ) ≤ q + 1 / 2 := Int.floor_le _
  have h2 : q + 1 / 2 - 1 < ((⌊q + 1 / 2⌋ : ℤ) : ℚ) := Int.sub_one_lt_floor _
  constructor <;> linarith

theorem timePercentage_close (total : Nat) (htot : 0 < total) (s : SubjStat) :
    |timePercentage total s - (s.totalTime : ℚ) / (total : ℚ) * 100| ≤ 1 / 200 := by
  unfold timePercentage
  rw [if_pos htot]
  have h := abs_jsRound_sub_le ((s.totalTime : ℚ) / (total : ℚ) * 10000)
  have heq : (jsRound ((s.totalTime : ℚ) / (total : ℚ) * 10000) : ℚ) / 100 -
      (s.totalTime : ℚ) / (total : ℚ) * 100 =
      ((jsRound ((s.totalTime : ℚ) / (total : ℚ) * 10000) : ℚ) -
        (s.totalTime : ℚ) / (total : ℚ) * 10000) / 100 := by
    ring
  rw [heq, abs_div]
  have h100 : |(100 : ℚ)| = 100 := by norm_num
  rw [h100]
  linarith

theorem sum_timePercentage_close (total : Nat) (htot : 0 < total) (stats : List SubjStat) :
    |(stats.map (fun s => timePercentage total s)).sum -
      (stats.map (fun s => (s.totalTime : ℚ) / (total : ℚ) * 100)).sum| ≤
      (stats.length : ℚ) / 200 := by
  induction stats with
  | nil => simp
  | cons a t ih =>
    simp only [List.map_cons, List.sum_cons, List.length_cons]
    have h1 := timePercentage_close total htot a
    have h3 : timePercentage total a + (t.map (fun s => timePercentage total s)).sum -
        ((a.totalTime : ℚ) / (total : ℚ) * 100 +
          (t.map (fun s => (s.totalTime : ℚ) / (total : ℚ) * 100)).sum) =
        (timePercentage total a - (a.totalTime : ℚ) / (total : ℚ) * 100) +
        ((t.map (fun s => timePercentage total s)).sum -
          (t.map (fun s => (s.totalTime : ℚ) / (total : ℚ) * 100)).sum) := by
      ring
    rw [h3]
    have h4 := abs_add (timePercentage total a - (a.totalTime : ℚ) / (total : ℚ) * 100)
      ((t.map (fun s => timePercentage total s)).sum -
        (t.map (fun s => (s.totalTime : ℚ) / (total : ℚ) * 100)).sum)
    have h5 : ((t.length + 1 : ℕ) : ℚ) / 200 = 1 / 200 + (t.length : ℚ) / 200 := by
      push_cast
      ring
    rw [h5]
    linarith

theorem sum_exact_pct (stats : List SubjStat) (h : 0 < subjTotalTime stats) :
    (stats.map (fun s => (s.totalTime : ℚ) / (subjTotalTime stats : ℚ) * 100)).sum = 100 := by
  have hT : ((subjTotalTime stats : ℕ) : ℚ) ≠ 0 := by
    exact_mod_cast Nat.pos_iff_ne_zero.mp h
  have factor : ∀ (l : List SubjStat) (T : ℚ),
      (l.map (fun s => (s.totalTime : ℚ) / T * 100)).sum =
        (l.map (fun s => (s.totalTime : ℚ))).sum / T * 100 := by
    intro l T
    induction l with
    | nil => simp
    | cons a t ih =>
      simp only [List.map_cons, List.sum_cons, ih]
      ring
  rw [factor]
  have hsum : (stats.map (fun s => (s.totalTime : ℚ))).sum = (subjTotalTime stats : ℚ) := by
    unfold subjTotalTime
    rw [Nat.cast_list_sum, List.map_map]
    rfl
  rw [hsum, div_self hT]
  norm_num

/-- C7: with a nonzero window total the subjects' timePercentage values sum
to 100 within the rounding tolerance of 1/200 per subject; with a zero
total every subject's timePercentage and sessionPercentage are exactly 0
(the guards return 0 without dividing, so in this rational model no output
is ever undefined the way a JavaScript NaN or Infinity would be). -/
theorem subject_percentages (stats : List SubjStat)
    (hvalid : ∀ s ∈ stats, GroupedStat s) :
    (0 < subjTotalTime stats →
      |(stats.map (fun s => timePercentage (subjTotalTime stats) s)).sum - 100| ≤
        (stats.length : ℚ) / 200) ∧
    (subjTotalTime stats = 0 →
      ∀ s ∈ stats, timePercentage (subjTotalTime stats) s = 0 ∧
        sessionPercentage (subjTotalSessions stats) s = 0) := by
  constructor
  · intro hT
    have h1 := sum_timePercentage_close (subjTotalTime stats) hT stats
    rw [sum_exact_pct stats hT] at h1
    exact h1
  · intro hT s hs
    exfalso
    have hv := hvalid s hs
    have hle : s.totalTime ≤ subjTotalTime stats := by
      refine List.single_le_sum (fun x _ => Nat.zero_le x) _ ?_
      exact List.mem_map_of_mem _ hs
    rcases hv with ⟨hv1, hv2⟩
    omega

/-- Witness for C7 on two subjects totalling 30 and 10 minutes. -/
theorem subject_percentages_witness :
    |(([⟨30, 1⟩, ⟨10, 1⟩] : List SubjStat).map
        (fun s => timePercentage (subjTotalTime [⟨30, 1⟩, ⟨10, 1⟩]) s)).sum - 100| ≤
      (([⟨30, 1⟩, ⟨10, 1⟩] : List SubjStat).length : ℚ) / 200 := by
  exact (subject_percentages [⟨30, 1⟩, ⟨10, 1⟩] (by decide)).1 (by decide)

theorem one_le_daysInMonth (y m : Nat) : 1 ≤ daysInMonth y m := by
  unfold daysInMonth
  split <;> first | (split <;> omega) | omega

theorem dlt_nextDay (x : SDate) : dlt x (nextDay x) := by
  unfold nextDay
  by_cases h1 : x.d < daysInMonth x.y x.m
  · rw [if_pos h1]
    right
    exact ⟨rfl, Or.inr ⟨rfl, Nat.lt_succ_self _⟩⟩
  · rw [if_neg h1]
    by_cases h2 : x.m < 12
    · rw [if_pos h2]
      right
      exact ⟨rfl, Or.inl (Nat.lt_succ_self _)⟩
    · rw [if_neg h2]
      left
      exact Nat.lt_succ_self _

theorem dlt_trans {a b c : SDate} (h1 : dlt a b) (h2 : dlt b c) : dlt a c := by
  unfold dlt at *
  omega

theorem dlt_not_dle {a b : SDate} (h : dlt a b) : ¬ dle b a := by
  unfold dlt dle at *
  omega

theorem dle_refl (a : SDate) : dle a a := by
  unfold dle
  omega

theorem dle_of_dlt {a b : SDate} (h : dlt a b) : dle a b := by
  unfold dlt dle at *
  omega

theorem dlt_iterate (s : SDate) {a b : Nat} (h : a < b) :
    dlt (nextDay^[a] s) (nextDay^[b] s) := by
  induction b with
  | zero => omega
  | succ n ih =>
    rw [Function.iterate_succ_apply']
    rcases Nat.lt_succ_iff_lt_or_eq.mp h with h1 | h1
    · exact dlt_trans (ih h1) (dlt_nextDay _)
    · subst h1
      exact dlt_nextDay _

theorem dle_iterate_iff (s : SDate) (a b : Nat) :
    dle (nextDay^[a] s) (nextDay^[b] s) ↔ a ≤ b := by
  constructor
  · intro h
    by_contra hc
    exact dlt_not_dle (dlt_iterate s (by omega : b < a)) h
  · intro h
    rcases Nat.lt_or_ge a b with h1 | h1
    · exact dle_of_dlt (dlt_iterate s h1)
    · have : a = b := by omega
      subst this
      exact dle_refl _

theorem fillLoop_stop (f : Nat) (p : Period) (cur e : SDate) (ts : List TSRow)
    (h : ¬ dle cur e) : fillLoop f p cur e ts = [] := by
  cases f with
  | zero => rfl
  | succ n => simp [fillLoop, h]

theorem map_range_succ_shift {α : Type} (g : Nat → α) (n : Nat) :
    (List.range (n + 1)).map g = g 0 :: (List.range n).map (fun k => g (k + 1)) := by
  rw [List.range_succ_eq_map, List.map_cons, List.map_map]
  rfl

theorem fillLoop_succ (f : Nat) (p : Period) (cur e : SDate) (ts : List TSRow) :
    fillLoop (f + 1) p cur e ts =
      if dle cur e then mkEntry (periodKey p cur) ts :: fillLoop f p (periodNext p cur) e ts
      else [] := rfl

theorem fillLoop_daily (n : Nat) : ∀ (s : SDate) (fuel : Nat) (ts : List TSRow),
    fillLoop (fuel + n + 1) .daily s (nextDay^[n] s) ts =
      (List.range (n + 1)).map (fun k => mkEntry (isoKey (nextDay^[k] s)) ts) := by
  induction n with
  | zero =>
    intro s fuel ts
    show fillLoop (fuel + 1) .daily s (nextDay^[0] s) ts = _
    rw [Function.iterate_zero_apply, fillLoop_succ, if_pos (dle_refl s)]
    rw [show periodNext Period.daily s = nextDay s from rfl]
    rw [fillLoop_stop fuel .daily (nextDay s) s ts (dlt_not_dle (dlt_nextDay s))]
    rfl
  | succ n ih =>
    intro s fuel ts
    have h1 : dle s (nextDay^[n + 1] s) := by
      have := (dle_iterate_iff s 0 (n + 1)).mpr (by omega)
      rwa [Function.iterate_zero_apply] at this
    rw [show fuel + (n + 1) + 1 = (fuel + n + 1) + 1 by ring]
    rw [fillLoop_succ, if_pos h1]
    rw [show periodNext Period.daily s = nextDay s from rfl]
    rw [Function.iterate_succ_apply, ih (nextDay s) fuel ts]
    rw [map_range_succ_shift (fun k => mkEntry (isoKey (nextDay^[k] s)) ts) (n + 1)]
    rfl

theorem fillLoop_weekly (n : Nat) : ∀ (s : SDate) (fuel : Nat) (ts : List TSRow),
    fillLoop (fuel + n / 7 + 1) .weekly s (nextDay^[n] s) ts =
      (List.range (n / 7 + 1)).map (fun k => mkEntry (fillWeekKey (nextDay^[7 * k] s)) ts) := by
  induction n using Nat.strong_induction_on with
  | _ n ih =>
    intro s fuel ts
    have h1 : dle s (nextDay^[n] s) := by
      have := (dle_iterate_iff s 0 n).mpr (by omega)
      rwa [Function.iterate_zero_apply] at this
    rcases Nat.lt_or_ge n 7 with hlt | hge
    · have hdiv : n / 7 = 0 := Nat.div_eq_of_lt hlt
      have hstop : ¬ dle (nextDay^[7] s) (nextDay^[n] s) := by
        intro hc
        have := (dle_iterate_iff s 7 n).mp hc
        omega
      rw [hdiv]
      rw [show fuel + 0 + 1 = fuel + 1 from rfl]
      rw [fillLoop_succ, if_pos h1]
      rw [show periodNext Period.weekly s = nextDay^[7] s from rfl]
      rw [fillLoop_stop fuel .weekly (nextDay^[7] s) (nextDay^[n] s) ts hstop]
      rfl
    · have hdiv : n / 7 = (n - 7) / 7 + 1 := by omega
      have hsplit : nextDay^[n] s = nextDay^[n - 7] (nextDay^[7] s) := by
        rw [← Function.iterate_add_apply]
        congr 1
        omega
      rw [hdiv]
      rw [fillLoop_succ, if_pos h1]
      rw [show periodNext Period.weekly s = nextDay^[7] s from rfl]
      rw [show fuel + ((n - 7) / 7 + 1) = fuel + (n - 7) / 7 + 1 from by ring]
      rw [show nextDay^[n] s = nextDay^[n - 7] (nextDay^[7] s) from hsplit]
      rw [ih (n - 7) (by omega) (nextDay^[7] s) fuel ts]
      rw [map_range_succ_shift (fun k => mkEntry (fillWeekKey (nextDay^[7 * k] s)) ts)
        ((n - 7) / 7 + 1)]
      refine congrArg₂ _ rfl (List.map_congr_left ?_)
      intro k hk
      have hit : nextDay^[7 * (k + 1)] s = nextDay^[7 * k] (nextDay^[7] s) := by
        rw [← Function.iterate_add_apply, Nat.mul_succ]
      rw [hit]

theorem dle_firstOfIdx_iff (i : Nat) (hi : 1 ≤ i) (e : SDate)
    (he1 : 1 ≤ e.m) (he2 : e.m ≤ 12) (he3 : 1 ≤ e.d) :
    dle (firstOfIdx i) e ↔ i ≤ mIdx e := by
  unfold dle firstOfIdx mIdx
  dsimp only
  omega

theorem nextMonthFirst_firstOfIdx (i : Nat) (hi : 1 ≤ i) :
    nextMonthFirst (firstOfIdx i) = firstOfIdx (i + 1) := by
  unfold nextMonthFirst firstOfIdx
  dsimp only
  by_cases h : (i - 1) % 12 + 1 < 12
  · rw [if_pos h]
    simp only [SDate.mk.injEq, and_true]
    omega
  · rw [if_neg h]
    simp only [SDate.mk.injEq, and_true]
    omega

theorem nextMonthFirst_eq_firstOfIdx (x : SDate) (h1 : 1 ≤ x.m) (h2 : x.m ≤ 12) :
    nextMonthFirst x = firstOfIdx (mIdx x + 1) := by
  unfold nextMonthFirst firstOfIdx mIdx
  by_cases h : x.m < 12
  · rw [if_pos h]
    simp only [SDate.mk.injEq, and_true]
    omega
  · rw [if_neg h]
    simp only [SDate.mk.injEq, and_true]
    omega

theorem monthKey_firstOfIdx (x : SDate) (h1 : 1 ≤ x.m) (h2 : x.m ≤ 12) :
    monthKey (firstOfIdx (mIdx x)) = monthKey x := by
  have hy : (12 * x.y + x.m - 1) / 12 = x.y := by omega
  have hm : (12 * x.y + x.m - 1) % 12 + 1 = x.m := by omega
  unfold monthKey firstOfIdx mIdx
  dsimp only
  rw [hy, hm]

theorem fillLoop_monthly_stop (f : Nat) (i : Nat) (hi : 1 ≤ i) (e : SDate)
    (he1 : 1 ≤ e.m) (he2 : e.m ≤ 12) (he3 : 1 ≤ e.d) (ts : List TSRow)
    (h : mIdx e < i) :
    fillLoop f .monthly (firstOfIdx i) e ts = [] := by
  apply fillLoop_stop
  rw [dle_firstOfIdx_iff i hi e he1 he2 he3]
  omega

theorem fillLoop_monthly_aux (j : Nat) : ∀ (i fuel : Nat) (e : SDate) (ts : List TSRow),
    1 ≤ i → 1 ≤ e.m → e.m ≤ 12 → 1 ≤ e.d → mIdx e = i + j →
    fillLoop (fuel + j + 1) .monthly (firstOfIdx i) e ts =
      (List.range (j + 1)).map (fun k => mkEntry (monthKey (firstOfIdx (i + k))) ts) := by
  induction j with
  | zero =>
    intro i fuel e ts hi he1 he2 he3 hm
    rw [show fuel + 0 + 1 = fuel + 1 from rfl, fillLoop_succ]
    rw [if_pos ((dle_firstOfIdx_iff i hi e he1 he2 he3).mpr (by omega))]
    rw [show periodNext Period.monthly (firstOfIdx i) = nextMonthFirst (firstOfIdx i) from rfl]
    rw [nextMonthFirst_firstOfIdx i hi]
    rw [fillLoop_monthly_stop fuel (i + 1) (by omega) e he1 he2 he3 ts (by omega)]
    rfl
  | succ j ihj =>
    intro i fuel e ts hi he1 he2 he3 hm
    rw [show fuel + (j + 1) + 1 = (fuel + j + 1) + 1 from by ring, fillLoop_succ]
    rw [if_pos ((dle_firstOfIdx_iff i hi e he1 he2 he3).mpr (by omega))]
    rw [show periodNext Period.monthly (firstOfIdx i) = nextMonthFirst (firstOfIdx i) from rfl]
    rw [nextMonthFirst_firstOfIdx i hi]
    rw [ihj (i + 1) fuel e ts (by omega) he1 he2 he3 (by omega)]
    rw [map_range_succ_shift (fun k => mkEntry (monthKey (firstOfIdx (i + k))) ts) (j + 1)]
    refine congrArg₂ _ rfl (List.map_congr_left ?_)
    intro k hk
    rw [show i + 1 + k = i + (k + 1) from by ring]

theorem validDate_nextDay (x : SDate) (h : ValidDate x) : ValidDate (nextDay x) := by
  unfold ValidDate nextDay at *
  by_cases h1 : x.d < daysInMonth x.y x.m
  · rw [if_pos h1]
    dsimp only
    exact ⟨h.1, h.2.1, by omega, by omega⟩
  · rw [if_neg h1]
    by_cases h2 : x.m < 12
    · rw [if_pos h2]
      dsimp only
      exact ⟨by omega, by omega, le_refl 1, one_le_daysInMonth _ _⟩
    · rw [if_neg h2]
      dsimp only
      exact ⟨by omega, by omega, le_refl 1, one_le_daysInMonth _ _⟩

theorem validDate_iterate (x : SDate) (h : ValidDate x) (n : Nat) :
    ValidDate (nextDay^[n] x) := by
  induction n with
  | zero => simpa
  | succ n ih =>
    rw [Function.iterate_succ_apply']
    exact validDate_nextDay _ ih

theorem mIdx_le_nextDay (x : SDate) (h : ValidDate x) : mIdx x ≤ mIdx (nextDay x) := by
  unfold ValidDate at h
  unfold mIdx nextDay
  by_cases h1 : x.d < daysInMonth x.y x.m
  · rw [if_pos h1]
  · rw [if_neg h1]
    by_cases h2 : x.m < 12
    · rw [if_pos h2]
      dsimp only
      omega
    · rw [if_neg h2]
      dsimp only
      omega

theorem mIdx_le_iterate (x : SDate) (h : ValidDate x) (n : Nat) :
    mIdx x ≤ mIdx (nextDay^[n] x) := by
  induction n with
  | zero => simp
  | succ n ih =>
    rw [Function.iterate_succ_apply']
    exact le_trans ih (mIdx_le_nextDay _ (validDate_iterate x h n))

theorem fillLoop_monthly (s : SDate) (hs : ValidDate s) (n fuel : Nat) (ts : List TSRow) :
    fillLoop (fuel + (mIdx (nextDay^[n] s) - mIdx s) + 2) .monthly s (nextDay^[n] s) ts =
      (List.range ((mIdx (nextDay^[n] s) - mIdx s) + 1)).map
        (fun k => mkEntry (monthKey (firstOfIdx (mIdx s + k))) ts) := by
  have he := validDate_iterate s hs n
  have hmono := mIdx_le_iterate s hs n
  have h1 : dle s (nextDay^[n] s) := by
    have := (dle_iterate_iff s 0 n).mpr (by omega)
    rwa [Function.iterate_zero_apply] at this
  set e := nextDay^[n] s with hedef
  rw [show fuel + (mIdx e - mIdx s) + 2 = (fuel + (mIdx e - mIdx s) + 1) + 1 from by ring]
  rw [fillLoop_succ, if_pos h1]
  rw [show periodNext Period.monthly s = nextMonthFirst s from rfl]
  rw [nextMonthFirst_eq_firstOfIdx s hs.1 hs.2.1]
  rcases Nat.eq_or_lt_of_le hmono with heq | hlt
  · rw [fillLoop_monthly_stop _ (mIdx s + 1) (by omega) e he.1 he.2.1 he.2.2.1 ts (by omega)]
    rw [show mIdx e - mIdx s = 0 from by omega]
    have hr : (List.range (0 + 1)).map
        (fun k => mkEntry (monthKey (firstOfIdx (mIdx s + k))) ts) =
        [mkEntry (monthKey (firstOfIdx (mIdx s))) ts] := rfl
    rw [hr, monthKey_firstOfIdx s hs.1 hs.2.1]
    rfl
  · have hj : mIdx e - mIdx s = (mIdx e - (mIdx s + 1)) + 1 := by omega
    rw [hj]
    rw [show fuel + ((mIdx e - (mIdx s + 1)) + 1) + 1 =
      (fuel + 1) + (mIdx e - (mIdx s + 1)) + 1 from by ring]
    rw [fillLoop_monthly_aux (mIdx e - (mIdx s + 1)) (mIdx s + 1) (fuel + 1) e ts
      (by omega) he.1 he.2.1 he.2.2.1 (by omega)]
    rw [map_range_succ_shift (fun k => mkEntry (monthKey (firstOfIdx (mIdx s + k))) ts)
      ((mIdx e - (mIdx s + 1)) + 1)]
    refine congrArg₂ _ ?_ (List.map_congr_left ?_)
    · rw [show mIdx s + 0 = mIdx s from rfl, monthKey_firstOfIdx s hs.1 hs.2.1]
      rfl
    · intro k hk
      rw [show mIdx s + 1 + k = mIdx s + (k + 1) from by ring]

/-- C1 counterexample: a 14-day daily request (startDate = endDate minus 14
days at midnight, both inclusive) with no sessions yields 15 zero-filled
entries, not 14; and for the weekly period the fill loop can omit a
calendar unit in range: the range 2023-01-07 .. 2023-01-09 contains
2023-01-09, whose week key is 2023-W02, yet no entry with that key is
produced. -/
theorem timeSeries_count_counterexample :
    nextDay^[14] ⟨2024, 3, 6⟩ = ⟨2024, 3, 20⟩ ∧
    (fillLoop 20 .daily ⟨2024, 3, 6⟩ ⟨2024, 3, 20⟩ []).length = 15 ∧
    (15 : Nat) ≠ 14 ∧
    nextDay^[2] ⟨2023, 1, 7⟩ = ⟨2023, 1, 9⟩ ∧
    fillWeekKey ⟨2023, 1, 9⟩ = "2023-W02" ∧
    ∀ entry ∈ fillLoop 5 .weekly ⟨2023, 1, 7⟩ ⟨2023, 1, 9⟩ [], entry.date ≠ "2023-W02" := by
  refine ⟨by decide, by decide, by decide, by decide, by decide, by decide⟩

/-- C1 (amended): over the range [startDate, startDate + n days] the fill
loop emits, for the daily period, exactly one entry per calendar day in
range inclusive (n + 1 entries, keyed by consecutive days); for the weekly
period, one entry per 7-day step from startDate (n / 7 + 1 entries, keyed
by the week of each step date), which may omit the final calendar week of
the range; for the monthly period, exactly one entry per calendar month in
range inclusive; and every entry whose bucket has no aggregated sessions is
zero-filled.  In particular a 14-day daily request spans 15 calendar days
and yields 15 entries. -/
theorem timeSeries_zero_fill :
    (∀ (s : SDate) (n fuel : Nat) (ts : List TSRow),
      fillLoop (fuel + n + 1) .daily s (nextDay^[n] s) ts =
        (List.range (n + 1)).map (fun k => mkEntry (isoKey (nextDay^[k] s)) ts)) ∧
    (∀ (s : SDate) (n fuel : Nat) (ts : List TSRow),
      fillLoop (fuel + n / 7 + 1) .weekly s (nextDay^[n] s) ts =
        (List.range (n / 7 + 1)).map (fun k => mkEntry (fillWeekKey (nextDay^[7 * k] s)) ts)) ∧
    (∀ s : SDate, ValidDate s → ∀ (n fuel : Nat) (ts : List TSRow),
      fillLoop (fuel + (mIdx (nextDay^[n] s) - mIdx s) + 2) .monthly s (nextDay^[n] s) ts =
        (List.range ((mIdx (nextDay^[n] s) - mIdx s) + 1)).map
          (fun k => mkEntry (monthKey (firstOfIdx (mIdx s + k))) ts)) ∧
    (∀ key : String, mkEntry key [] = ⟨key, 0, 0, 0, 0⟩) :=
  ⟨fun s n fuel ts => fillLoop_daily n s fuel ts,
   fun s n fuel ts => fillLoop_weekly n s fuel ts,
   fun s hs n fuel ts => fillLoop_monthly s hs n fuel ts,
   fun _ => rfl⟩

/-- Witness for C1's amended statement: the monthly clause at the valid
date 2024-01-15 over a 45-day range. -/
theorem timeSeries_zero_fill_witness :
    fillLoop (0 + (mIdx (nextDay^[45] ⟨2024, 1, 15⟩) - mIdx ⟨2024, 1, 15⟩) + 2) .monthly
        ⟨2024, 1, 15⟩ (nextDay^[45] ⟨2024, 1, 15⟩) [] =
      (List.range ((mIdx (nextDay^[45] ⟨2024, 1, 15⟩) - mIdx ⟨2024, 1, 15⟩) + 1)).map
        (fun k => mkEntry (monthKey (firstOfIdx (mIdx ⟨2024, 1, 15⟩ + k))) []) :=
  timeSeries_zero_fill.2.2.1 ⟨2024, 1, 15⟩ (by decide) 45 0 []

end StudySync
